import Mathlib

/-!
Verification of the VocabLoop snapshot synchronization and merge engine
(`api/sync.js`) against its natural-language specification.

The JavaScript source operates on JSON values.  We embed the data it
manipulates at the granularity of the spec's data model: JS objects used
as string-keyed maps become association lists (`List (String × α)`,
first binding wins on lookup, as in a JS object no duplicate keys arise
in practice), possibly-missing fields become `Option`, and the opaque
scheduling payload of a `WordRecord` is carried as a single opaque blob,
as §9 of the spec itself suggests.  JS `Set` iteration (insertion order,
first occurrence kept) is modelled by `jsDedup`.  The HTTP handler is
modelled as a function from an environment of external collaborators
(token verifier, user table, sync_data table) to a response paired with
the chronological list of database events it performs.
-/

namespace VocabLoop

/-- Lookup in a JavaScript-object-like association list: first binding wins
(mirrors `obj[key]` on an object, which cannot hold duplicate keys). -/
def lookupA {α : Type} : List (String × α) → String → Option α
  | [], _ => none
  | (k', v) :: rest, k => if k' = k then some v else lookupA rest k

/-- The key list of an association list (mirrors `Object.keys`). -/
def keysA {α : Type} (m : List (String × α)) : List String :=
  m.map Prod.fst

/-- Worker for `jsDedup`: walk the list with a seen-set of keys, keeping an
element only the first time its key is seen (JS `Set` insertion semantics). -/
def jsDedupAux {α β : Type} [DecidableEq β] (key : α → β) : List α → List β → List α
  | [], _ => []
  | x :: xs, seen =>
    if key x ∈ seen then jsDedupAux key xs seen
    else x :: jsDedupAux key xs (key x :: seen)

/-- First-occurrence deduplication by a key function, preserving order —
the semantics of `new Set([...a, ...b])` / a manual seen-set loop in JS. -/
def jsDedup {α β : Type} [DecidableEq β] (key : α → β) (l : List α) : List α :=
  jsDedupAux key l []

/-- `arr.slice(-n)`: the last `n` elements of a list (the whole list when
it is shorter than `n`). -/
def sliceLast {α : Type} (n : Nat) (l : List α) : List α :=
  l.drop (l.length - n)

/-- A JSON scalar as it can occur in a reading-history entry. -/
inductive HScalar where
  | str : String → HScalar
  | num : Int → HScalar
  | bool : Bool → HScalar
deriving DecidableEq, Repr

/-- A reading-history entry: an opaque scalar or a (flat) JSON object. -/
inductive HistoryItem where
  | scalar : HScalar → HistoryItem
  | obj : List (String × HScalar) → HistoryItem
deriving DecidableEq, Repr

/-- JavaScript `String(x)` on a scalar. -/
def jsStringOfScalar : HScalar → String
  | .str s => s
  | .num n => toString n
  | .bool b => cond b "true" "false"

/-- `JSON.stringify` of a scalar occurring inside an object. -/
def jsonOfScalar : HScalar → String
  | .str s => "\"" ++ s ++ "\""
  | .num n => toString n
  | .bool b => cond b "true" "false"

/-- The dedup key the code computes for a history item:
`typeof item === 'object' ? JSON.stringify(item) : String(item)`.
`JSON.stringify` serializes object fields in insertion order. -/
def jsKey : HistoryItem → String
  | .scalar s => jsStringOfScalar s
  | .obj fs =>
      "\x7b" ++ String.intercalate ","
        (fs.map fun p => "\"" ++ p.1 ++ "\":" ++ jsonOfScalar p.2) ++ "\x7d"

/-- Per-word spaced-repetition record: the distinguished `next` timestamp
plus an opaque payload standing for all other scheduling fields, carried
through the merge unexamined. -/
structure WordRecord where
  next : Option Int
  payload : String
deriving DecidableEq, Repr

/-- Per-deck learning state as the code reads it (`state`, `points`,
`streak`, `autoPlay`; counters may be absent, the code defaults them to 0). -/
structure DeckState where
  state : List (String × WordRecord)
  points : Option Nat
  streak : Option Nat
  autoPlay : Option Bool
deriving DecidableEq, Repr

/-- Global streak/achievement state as the code reads it. -/
structure GlobalState where
  dailyStreak : Option Nat
  lastStudyDate : Option String
  totalReviewed : Option Nat
  achievements : List String
deriving DecidableEq, Repr

/-- The complete synchronizable snapshot.  `extra` carries any unknown
top-level fields of the JSON document (name and opaque serialized value);
the merge engine never reads them. -/
structure Snapshot where
  decks : List (String × DeckState)
  global : Option GlobalState
  preferredDeck : String
  readingHistory : List HistoryItem
  extra : List (String × String)
deriving DecidableEq, Repr

/-- The empty object `{}` read as a deck state. -/
def emptyDeck : DeckState :=
  { state := [], points := none, streak := none, autoPlay := none }

/-- The empty object `{}` read as a global state. -/
def emptyGlobal : GlobalState :=
  { dailyStreak := none, lastStudyDate := none, totalReviewed := none
    achievements := [] }

/-- The empty object `{}` read as a snapshot (the cloud default in `merge`
when no record is stored). -/
def emptySnapshot : Snapshot :=
  { decks := [], global := none, preferredDeck := "", readingHistory := []
    extra := [] }

/-- `(l.next || 0) >= (c.next || 0) ? l : c` — whole-record last-reviewed-wins. -/
def mergeRecord (l c : WordRecord) : WordRecord :=
  if c.next.getD 0 ≤ l.next.getD 0 then l else c

/-- The per-word branch of the loop body in `mergeWordStates`:
`if (!l) take c; if (!c) take l; else compare next`. -/
def pickRecord : Option WordRecord → Option WordRecord → Option WordRecord
  | none, c => c
  | some rl, none => some rl
  | some rl, some rc => some (mergeRecord rl rc)

/-- The loop of `mergeWordStates`: iterate the union of word keys
(local keys first, then new cloud keys, as `new Set` does) and pick a
record for each. -/
def mergeStateMaps (ls cs : List (String × WordRecord)) : List (String × WordRecord) :=
  (jsDedup id (keysA ls ++ keysA cs)).filterMap
    fun w => (pickRecord (lookupA ls w) (lookupA cs w)).map fun r => (w, r)

/-- `mergeWordStates(local, cloud)` from `api/sync.js`: absent sides
short-circuit (`!local`, `!cloud`), otherwise per-word merge plus
pairwise-max counters and local-preferred `autoPlay`. -/
def mergeWordStates : Option DeckState → Option DeckState → DeckState
  | none, c => c.getD emptyDeck
  | some l, none => l
  | some l, some c =>
    { state := mergeStateMaps l.state c.state
      points := some (max (l.points.getD 0) (c.points.getD 0))
      streak := some (max (l.streak.getD 0) (c.streak.getD 0))
      autoPlay := if l.autoPlay.isSome then l.autoPlay else c.autoPlay }

/-- `mergeGlobal(local, cloud)` from `api/sync.js`. -/
def mergeGlobal : Option GlobalState → Option GlobalState → GlobalState
  | none, c => c.getD emptyGlobal
  | some l, none => l
  | some l, some c =>
    { dailyStreak := some (max (l.dailyStreak.getD 0) (c.dailyStreak.getD 0))
      lastStudyDate :=
        if (c.lastStudyDate.getD "").data ≤ (l.lastStudyDate.getD "").data then
          l.lastStudyDate
        else c.lastStudyDate
      totalReviewed := some (max (l.totalReviewed.getD 0) (c.totalReviewed.getD 0))
      achievements := jsDedup id (l.achievements ++ c.achievements) }

/-- The deck-map part of `mergeAll`: union of deck ids, each merged by
`mergeWordStates` (missing entries passed as absent). -/
def mergeDecks (l c : List (String × DeckState)) : List (String × DeckState) :=
  (jsDedup id (keysA l ++ keysA c)).map
    fun d => (d, mergeWordStates (lookupA l d) (lookupA c d))

/-- The reading-history loop of `mergeAll`, verbatim: walk the concatenated
list with a `seen` set of string keys, pushing an item onto the result the
first time its key is seen. -/
def histLoop : List HistoryItem → List String → List HistoryItem → List HistoryItem
  | [], _, acc => acc
  | item :: rest, seen, acc =>
    if jsKey item ∈ seen then histLoop rest seen acc
    else histLoop rest (jsKey item :: seen) (acc ++ [item])

/-- The merged reading history: dedup loop over `local ++ cloud`, then
`.slice(-50)`. -/
def mergedHistory (l c : List HistoryItem) : List HistoryItem :=
  sliceLast 50 (histLoop (l ++ c) [] [])

/-- `local.preferredDeck || cloud.preferredDeck || ''` (missing reads as `''`). -/
def mergePreferred (l c : String) : String :=
  if l ≠ "" then l else if c ≠ "" then c else ""

/-- `mergeAll(local, cloud)` from `api/sync.js`: builds a fresh result object
with exactly the fields `decks`, `global`, `preferredDeck`, `readingHistory`. -/
def mergeAll (loc cloud : Snapshot) : Snapshot :=
  { decks := mergeDecks loc.decks cloud.decks
    global := some (mergeGlobal loc.global cloud.global)
    preferredDeck := mergePreferred loc.preferredDeck cloud.preferredDeck
    readingHistory := mergedHistory loc.readingHistory cloud.readingHistory
    extra := [] }

/-- Structural equality of history items as the spec's data model defines
identity for deduplication: scalars by value, objects by full
field-by-field equality (same fields, equal values, order irrelevant).
This definition follows the spec's words; it exists to be compared with
the dedup relation the code actually uses (`jsKey` equality). -/
def specStructEq : HistoryItem → HistoryItem → Bool
  | .scalar a, .scalar b => decide (a = b)
  | .obj fs, .obj gs =>
      (fs.all fun p => decide (lookupA gs p.1 = some p.2)) &&
      (gs.all fun p => decide (lookupA fs p.1 = some p.2))
  | _, _ => false

/-- First-occurrence deduplication with respect to a boolean relation:
keep an item only if no already-kept item is related to it. -/
def dedupByRel {α : Type} (r : α → α → Bool) : List α → List α → List α
  | [], _ => []
  | x :: xs, kept =>
    if kept.any fun y => r y x then dedupByRel r xs kept
    else x :: dedupByRel r xs (x :: kept)

/-- The history merge as the spec's words describe it: concatenate local
then cloud, keep the first occurrence of each item under structural
equality, keep the last 50.  This definition follows the spec's words;
the code's behaviour is `mergedHistory`. -/
def specHistoryMerge (l c : List HistoryItem) : List HistoryItem :=
  sliceLast 50 (dedupByRel specStructEq (l ++ c) [])

/-- One stored row of the `sync_data` table, already JSON-parsed. -/
structure StoredRow where
  data : Snapshot
  updatedAt : Nat
deriving DecidableEq, Repr

/-- The external collaborators of the handler: the token verifier
(`verifyToken`), the `users` table, the `sync_data` table, and the clock.
Each handler invocation is stateless with respect to other invocations. -/
structure Env where
  verifyToken : Option String → Option String
  userExists : String → Bool
  stored : String → Option StoredRow
  now : Nat

/-- A database access performed by the handler, in chronological order:
the user-existence check (`SELECT 1 FROM users`), a `sync_data` read
(`SELECT ... FROM sync_data`), or a `sync_data` write (`INSERT OR REPLACE`). -/
inductive DbEvent where
  | userCheck (username : String)
  | readSync (username : String)
  | writeSync (username : String) (data : Snapshot) (ts : Nat)
deriving DecidableEq, Repr

/-- An incoming request: HTTP method and the `action`, `token`, `data`
fields destructured from the JSON body (`none` models a missing field; for
`data` it also models a non-object value, which validation rejects alike). -/
structure SyncRequest where
  method : String
  action : Option String
  token : Option String
  data : Option Snapshot
deriving Repr

/-- The JSON response: HTTP status, `ok`, `message`, the optional `data`
field (`some none` is an explicit JSON `null`), and optional `updatedAt`. -/
structure SyncResponse where
  status : Nat
  ok : Bool
  message : String
  data : Option (Option Snapshot)
  updatedAt : Option Nat
deriving DecidableEq, Repr

/-- Convenience constructor for an error response with no data fields. -/
def errResponse (status : Nat) (msg : String) : SyncResponse :=
  { status := status, ok := false, message := msg, data := none
    updatedAt := none }

/-- The `module.exports` handler of `api/sync.js`, as a function from the
request and the external environment to the response paired with the
chronological list of database accesses it performs.  Token verification
is modelled as an oracle call (its internals live in `token.js`). -/
def handler (env : Env) (req : SyncRequest) : SyncResponse × List DbEvent :=
  if req.method ≠ "POST" then (errResponse 405 "Method not allowed", [])
  else
    match env.verifyToken req.token with
    | none => (errResponse 401 "Invalid or expired token.", [])
    | some username =>
      if env.userExists username = false then
        (errResponse 401 "User not found.", [DbEvent.userCheck username])
      else if req.action = some "push" then
        match req.data with
        | none =>
            (errResponse 400 "Missing data payload.", [DbEvent.userCheck username])
        | some d =>
            ({ status := 200, ok := true, message := "Data saved.", data := none
               updatedAt := some env.now },
             [DbEvent.userCheck username, DbEvent.writeSync username d env.now])
      else if req.action = some "pull" then
        match env.stored username with
        | none =>
            ({ status := 200, ok := true, message := "No cloud data found."
               data := some none, updatedAt := none },
             [DbEvent.userCheck username, DbEvent.readSync username])
        | some row =>
            ({ status := 200, ok := true, message := ""
               data := some (some row.data), updatedAt := some row.updatedAt },
             [DbEvent.userCheck username, DbEvent.readSync username])
      else if req.action = some "merge" then
        match req.data with
        | none =>
            (errResponse 400 "Missing data payload.", [DbEvent.userCheck username])
        | some d =>
            let cloudData := ((env.stored username).map StoredRow.data).getD emptySnapshot
            let merged := mergeAll d cloudData
            ({ status := 200, ok := true, message := "Merged successfully."
               data := some (some merged), updatedAt := some env.now },
             [DbEvent.userCheck username, DbEvent.readSync username,
              DbEvent.writeSync username merged env.now])
      else
        (errResponse 400 "Unsupported action. Use push, pull, or merge.",
         [DbEvent.userCheck username])

/-! Basic lemmas about the JS-object and JS-Set models. -/

theorem jsDedupAux_congr {α β : Type} [DecidableEq β] (key : α → β)
    (l : List α) (s₁ s₂ : List β) (h : ∀ b, b ∈ s₁ ↔ b ∈ s₂) :
    jsDedupAux key l s₁ = jsDedupAux key l s₂ := by
  induction l generalizing s₁ s₂ with
  | nil => rfl
  | cons x xs ih =>
    simp only [jsDedupAux]
    by_cases hx : key x ∈ s₁
    · rw [if_pos hx, if_pos ((h _).mp hx)]
      exact ih _ _ h
    · rw [if_neg hx, if_neg (fun hc => hx ((h _).mpr hc))]
      refine congrArg (x :: ·) (ih _ _ fun b => ?_)
      simp only [List.mem_cons]
      exact or_congr Iff.rfl (h b)

theorem jsDedupAux_append {α β : Type} [DecidableEq β] (key : α → β)
    (l₁ l₂ : List α) (s : List β) :
    jsDedupAux key (l₁ ++ l₂) s =
      jsDedupAux key l₁ s ++ jsDedupAux key l₂ (l₁.map key ++ s) := by
  induction l₁ generalizing s with
  | nil => rfl
  | cons x xs ih =>
    simp only [List.cons_append, jsDedupAux, List.map_cons, List.append_eq]
    by_cases hx : key x ∈ s
    · simp only [if_pos hx]
      rw [ih]
      refine congrArg (jsDedupAux key xs s ++ ·) (jsDedupAux_congr _ _ _ _ fun b => ?_)
      simp only [List.mem_append, List.mem_cons]
      constructor
      · rintro (h1 | h1)
        · exact Or.inr (Or.inl h1)
        · exact Or.inr (Or.inr h1)
      · rintro (h1 | h1 | h1)
        · exact Or.inr (h1 ▸ hx)
        · exact Or.inl h1
        · exact Or.inr h1
    · simp only [if_neg hx]
      rw [ih, List.cons_append]
      refine congrArg (x :: ·)
        (congrArg (jsDedupAux key xs (key x :: s) ++ ·)
          (jsDedupAux_congr _ _ _ _ fun b => ?_))
      simp only [List.mem_append, List.mem_cons]
      constructor
      · rintro (h1 | h1 | h1)
        · exact Or.inr (Or.inl h1)
        · exact Or.inl h1
        · exact Or.inr (Or.inr h1)
      · rintro (h1 | h1 | h1)
        · exact Or.inr (Or.inl h1)
        · exact Or.inl h1
        · exact Or.inr (Or.inr h1)

theorem jsDedupAux_eq_nil {α β : Type} [DecidableEq β] (key : α → β)
    (l : List α) (s : List β) (h : ∀ x ∈ l, key x ∈ s) :
    jsDedupAux key l s = [] := by
  induction l with
  | nil => rfl
  | cons x xs ih =>
    simp only [jsDedupAux, if_pos (h x (List.mem_cons_self x xs))]
    exact ih fun y hy => h y (List.mem_cons_of_mem _ hy)

theorem jsDedup_append_self {α β : Type} [DecidableEq β] (key : α → β)
    (l : List α) : jsDedup key (l ++ l) = jsDedup key l := by
  unfold jsDedup
  rw [jsDedupAux_append]
  have h2 : jsDedupAux key l (l.map key ++ []) = [] :=
    jsDedupAux_eq_nil key l _ fun x hx =>
      List.mem_append.mpr (Or.inl (List.mem_map_of_mem key hx))
  rw [h2, List.append_nil]

theorem jsDedupAux_eq_self {α β : Type} [DecidableEq β] (key : α → β)
    (l : List α) (s : List β) (h1 : (l.map key).Nodup)
    (h2 : ∀ x ∈ l, key x ∉ s) : jsDedupAux key l s = l := by
  induction l generalizing s with
  | nil => rfl
  | cons x xs ih =>
    simp only [List.map_cons, List.nodup_cons] at h1
    simp only [jsDedupAux, if_neg (h2 x (List.mem_cons_self x xs))]
    refine congrArg (x :: ·) (ih _ h1.2 fun y hy => ?_)
    simp only [List.mem_cons]
    rintro (hk | hk)
    · exact h1.1 (hk ▸ List.mem_map_of_mem key hy)
    · exact h2 y (List.mem_cons_of_mem _ hy) hk

theorem jsDedup_eq_self {α β : Type} [DecidableEq β] (key : α → β)
    (l : List α) (h : (l.map key).Nodup) : jsDedup key l = l :=
  jsDedupAux_eq_self key l [] h (by simp)

theorem jsDedupAux_key_nodup {α β : Type} [DecidableEq β] (key : α → β)
    (l : List α) (s : List β) :
    ((jsDedupAux key l s).map key).Nodup ∧
      ∀ b ∈ (jsDedupAux key l s).map key, b ∉ s := by
  induction l generalizing s with
  | nil => exact ⟨List.nodup_nil, by simp [jsDedupAux]⟩
  | cons x xs ih =>
    simp only [jsDedupAux]
    by_cases hx : key x ∈ s
    · rw [if_pos hx]; exact ih s
    · rw [if_neg hx]
      obtain ⟨ihn, ihs⟩ := ih (key x :: s)
      refine ⟨List.nodup_cons.mpr ⟨fun hm => ?_, ihn⟩, ?_⟩
      · exact ihs _ hm (List.mem_cons_self _ _)
      · intro b hb
        rcases List.mem_cons.mp hb with hb | hb
        · exact hb ▸ hx
        · exact fun hbs => ihs b hb (List.mem_cons_of_mem _ hbs)

theorem jsDedup_key_nodup {α β : Type} [DecidableEq β] (key : α → β)
    (l : List α) : ((jsDedup key l).map key).Nodup :=
  (jsDedupAux_key_nodup key l []).1

theorem jsDedup_id_nodup {α : Type} [DecidableEq α] (l : List α) :
    (jsDedup id l).Nodup := by
  have h := jsDedup_key_nodup id l
  rwa [List.map_id] at h

theorem mem_jsDedupAux_id {α : Type} [DecidableEq α] (l s : List α) (a : α) :
    a ∈ jsDedupAux id l s ↔ a ∈ l ∧ a ∉ s := by
  induction l generalizing s with
  | nil => simp [jsDedupAux]
  | cons x xs ih =>
    simp only [jsDedupAux, id_eq]
    by_cases hx : x ∈ s
    · rw [if_pos hx, ih]
      simp only [List.mem_cons]
      constructor
      · rintro ⟨h1, h2⟩
        exact ⟨Or.inr h1, h2⟩
      · rintro ⟨h1 | h1, h2⟩
        · exact absurd (h1 ▸ hx) h2
        · exact ⟨h1, h2⟩
    · rw [if_neg hx]
      simp only [List.mem_cons, ih, List.mem_cons]
      constructor
      · rintro (h1 | ⟨h1, h2⟩)
        · exact ⟨Or.inl h1, h1 ▸ hx⟩
        · exact ⟨Or.inr h1, fun hc => h2 (Or.inr hc)⟩
      · rintro ⟨h1 | h1, h2⟩
        · exact Or.inl h1
        · by_cases hax : a = x
          · exact Or.inl hax
          · exact Or.inr ⟨h1, fun hc => hc.elim hax h2⟩

theorem mem_jsDedup_id {α : Type} [DecidableEq α] (l : List α) (a : α) :
    a ∈ jsDedup id l ↔ a ∈ l := by
  rw [jsDedup, mem_jsDedupAux_id]
  simp

theorem map_congr_mem {α β : Type} (l : List α) (f g : α → β)
    (h : ∀ a ∈ l, f a = g a) : l.map f = l.map g := by
  induction l with
  | nil => rfl
  | cons a rest ih =>
    simp only [List.map_cons, h a (List.mem_cons_self a rest)]
    exact congrArg _ (ih fun b hb => h b (List.mem_cons_of_mem _ hb))

theorem filterMap_congr_mem {α β : Type} (l : List α) (f g : α → Option β)
    (h : ∀ a ∈ l, f a = g a) : l.filterMap f = l.filterMap g := by
  induction l with
  | nil => rfl
  | cons a rest ih =>
    simp only [List.filterMap_cons, h a (List.mem_cons_self a rest)]
    cases g a <;> simp [ih fun b hb => h b (List.mem_cons_of_mem _ hb)]

theorem lookupA_eq_some_mem {α : Type} (m : List (String × α)) (k : String)
    (v : α) (h : lookupA m k = some v) : (k, v) ∈ m := by
  induction m with
  | nil => simp [lookupA] at h
  | cons p rest ih =>
    obtain ⟨k', v'⟩ := p
    simp only [lookupA] at h
    by_cases hk : k' = k
    · rw [if_pos hk] at h
      injection h with h
      rw [← hk, ← h]
      exact List.mem_cons_self _ _
    · rw [if_neg hk] at h
      exact List.mem_cons_of_mem _ (ih h)

theorem mem_keysA_of_lookupA {α : Type} (m : List (String × α)) (k : String)
    (v : α) (h : lookupA m k = some v) : k ∈ keysA m := by
  have hm := lookupA_eq_some_mem m k v h
  exact List.mem_map_of_mem Prod.fst hm

theorem lookupA_eq_none_of_not_mem {α : Type} (m : List (String × α))
    (k : String) (h : k ∉ keysA m) : lookupA m k = none := by
  induction m with
  | nil => rfl
  | cons p rest ih =>
    obtain ⟨k', v'⟩ := p
    simp only [keysA, List.map_cons, List.mem_cons] at h
    push_neg at h
    simp only [lookupA, if_neg (fun (he : k' = k) => h.1 he.symm)]
    exact ih fun hm => h.2 hm

theorem lookupA_isSome_of_mem {α : Type} (m : List (String × α)) (k : String)
    (h : k ∈ keysA m) : (lookupA m k).isSome = true := by
  induction m with
  | nil => simp [keysA] at h
  | cons p rest ih =>
    obtain ⟨k', v'⟩ := p
    simp only [keysA, List.map_cons, List.mem_cons] at h
    simp only [lookupA]
    by_cases hk : k' = k
    · simp [if_pos hk]
    · rcases h with h | h
      · exact absurd h.symm hk
      · simpa [if_neg hk] using ih h

theorem keysA_map_construct {α : Type} (ks : List String) (f : String → α) :
    keysA (ks.map fun k => (k, f k)) = ks := by
  rw [keysA, List.map_map]
  rw [map_congr_mem ks (Prod.fst ∘ fun k => (k, f k)) (fun k => k) fun a _ => rfl]
  simp

theorem lookupA_map_construct {α : Type} (ks : List String) (f : String → α)
    (k : String) (hk : k ∈ ks) (hnd : ks.Nodup) :
    lookupA (ks.map fun k' => (k', f k')) k = some (f k) := by
  induction ks with
  | nil => cases hk
  | cons a rest ih =>
    have hnd' := List.nodup_cons.mp hnd
    simp only [List.map_cons, lookupA]
    rcases List.mem_cons.mp hk with h | h
    · rw [← h]
      simp
    · have hak : a ≠ k := fun he => hnd'.1 (he ▸ h)
      rw [if_neg hak]
      exact ih h hnd'.2

theorem lookupA_filterMap_construct_none {α : Type} (ks : List String)
    (f : String → Option α) (k : String) (hk : k ∉ ks) :
    lookupA (ks.filterMap fun k' => (f k').map fun v => (k', v)) k = none := by
  induction ks with
  | nil => rfl
  | cons a rest ih =>
    have hak : a ≠ k := fun he => hk (he ▸ List.mem_cons_self a rest)
    have hkr : k ∉ rest := fun hr => hk (List.mem_cons_of_mem _ hr)
    cases hfa : f a with
    | none =>
      simp only [List.filterMap_cons, hfa, Option.map_none']
      exact ih hkr
    | some v =>
      simp only [List.filterMap_cons, hfa, Option.map_some', lookupA, if_neg hak]
      exact ih hkr

theorem lookupA_filterMap_construct {α : Type} (ks : List String)
    (f : String → Option α) (k : String) (hk : k ∈ ks) (hnd : ks.Nodup) :
    lookupA (ks.filterMap fun k' => (f k').map fun v => (k', v)) k = f k := by
  induction ks with
  | nil => cases hk
  | cons a rest ih =>
    have hnd' := List.nodup_cons.mp hnd
    rcases List.mem_cons.mp hk with h | h
    · cases hfa : f a with
      | none =>
        simp only [List.filterMap_cons, hfa, Option.map_none']
        rw [h, hfa]
        exact lookupA_filterMap_construct_none rest f a (h ▸ hnd'.1)
      | some v =>
        simp only [List.filterMap_cons, hfa, Option.map_some', lookupA]
        rw [← h] at hfa
        rw [if_pos h.symm, hfa]
    · have hak : a ≠ k := fun he => hnd'.1 (he ▸ h)
      cases hfa : f a with
      | none =>
        simp only [List.filterMap_cons, hfa, Option.map_none']
        exact ih h hnd'.2
      | some v =>
        simp only [List.filterMap_cons, hfa, Option.map_some', lookupA, if_neg hak]
        exact ih h hnd'.2

theorem keysA_filterMap_construct {α : Type} (ks : List String)
    (f : String → Option α) (h : ∀ k ∈ ks, (f k).isSome = true) :
    keysA (ks.filterMap fun k' => (f k').map fun v => (k', v)) = ks := by
  induction ks with
  | nil => rfl
  | cons a rest ih =>
    obtain ⟨v, hv⟩ := Option.isSome_iff_exists.mp (h a (List.mem_cons_self a rest))
    simp only [List.filterMap_cons, hv, Option.map_some', keysA, List.map_cons]
    exact congrArg (a :: ·) (ih fun k hk => h k (List.mem_cons_of_mem _ hk))

theorem filterMap_reconstruct {α : Type} (m : List (String × α))
    (hnd : (keysA m).Nodup) :
    ((keysA m).filterMap fun k => (lookupA m k).map fun v => (k, v)) = m := by
  induction m with
  | nil => rfl
  | cons p rest ih =>
    obtain ⟨k, v⟩ := p
    simp only [keysA, List.map_cons, List.nodup_cons] at hnd
    have h1 : lookupA ((k, v) :: rest) k = some v := by simp [lookupA]
    show List.filterMap _ (k :: keysA rest) = _
    simp only [List.filterMap_cons, h1, Option.map_some']
    refine congrArg ((k, v) :: ·) ?_
    rw [filterMap_congr_mem (keysA rest) _
      (fun k' => (lookupA rest k').map fun v' => (k', v'))
      (fun k' hk' => ?_)]
    · exact ih hnd.2
    · have hne : k ≠ k' := fun he => hnd.1 (he ▸ hk')
      simp [lookupA, if_neg hne]

theorem histLoop_eq (l : List HistoryItem) :
    ∀ (seen : List String) (acc : List HistoryItem),
      histLoop l seen acc = acc ++ jsDedupAux jsKey l seen := by
  induction l with
  | nil =>
    intro seen acc
    simp [histLoop, jsDedupAux]
  | cons x xs ih =>
    intro seen acc
    simp only [histLoop, jsDedupAux]
    by_cases hx : jsKey x ∈ seen
    · simp only [if_pos hx]
      exact ih _ _
    · simp only [if_neg hx]
      rw [ih]
      simp

theorem sliceLast_length_le {α : Type} (n : Nat) (l : List α) :
    (sliceLast n l).length ≤ n := by
  simp only [sliceLast, List.length_drop]
  omega

theorem sliceLast_eq_self {α : Type} (n : Nat) (l : List α)
    (h : l.length ≤ n) : sliceLast n l = l := by
  simp [sliceLast, Nat.sub_eq_zero_of_le h]

theorem sliceLast_sublist {α : Type} (n : Nat) (l : List α) :
    (sliceLast n l).Sublist l :=
  List.drop_sublist _ _

/-! Merge-level lemmas. -/

theorem lookupA_mergeStateMaps (ls cs : List (String × WordRecord)) (w : String) :
    lookupA (mergeStateMaps ls cs) w =
      pickRecord (lookupA ls w) (lookupA cs w) := by
  unfold mergeStateMaps
  by_cases hw : w ∈ jsDedup id (keysA ls ++ keysA cs)
  · exact lookupA_filterMap_construct _ _ _ hw (jsDedup_id_nodup _)
  · rw [lookupA_filterMap_construct_none _ _ _ hw]
    have hwa : w ∉ keysA ls ++ keysA cs :=
      fun hc => hw ((mem_jsDedup_id _ _).mpr hc)
    rw [List.mem_append] at hwa
    push_neg at hwa
    rw [lookupA_eq_none_of_not_mem ls w hwa.1,
      lookupA_eq_none_of_not_mem cs w hwa.2]
    rfl

theorem keysA_mergeStateMaps (ls cs : List (String × WordRecord)) :
    keysA (mergeStateMaps ls cs) = jsDedup id (keysA ls ++ keysA cs) := by
  unfold mergeStateMaps
  refine keysA_filterMap_construct _ _ fun w hw => ?_
  rcases List.mem_append.mp ((mem_jsDedup_id _ _).mp hw) with h | h
  · obtain ⟨v, hv⟩ := Option.isSome_iff_exists.mp (lookupA_isSome_of_mem _ _ h)
    rw [hv]
    cases lookupA cs w <;> simp [pickRecord]
  · obtain ⟨v, hv⟩ := Option.isSome_iff_exists.mp (lookupA_isSome_of_mem _ _ h)
    rw [hv]
    cases lookupA ls w <;> simp [pickRecord]

theorem keysA_mergeDecks (l c : List (String × DeckState)) :
    keysA (mergeDecks l c) = jsDedup id (keysA l ++ keysA c) :=
  keysA_map_construct _ _

theorem lookupA_mergeDecks_mem (l c : List (String × DeckState)) (d : String)
    (h : d ∈ jsDedup id (keysA l ++ keysA c)) :
    lookupA (mergeDecks l c) d =
      some (mergeWordStates (lookupA l d) (lookupA c d)) :=
  lookupA_map_construct _ _ _ h (jsDedup_id_nodup _)

/-- C1: for every word key present in both input state maps, the Word-State
Merger keeps exactly one of the two records whole (opaque payload included):
the local record if and only if local `next` is ≥ cloud `next` (a missing
`next` read as 0) — so equal `next` always keeps the local record — and the
cloud record verbatim otherwise. -/
theorem mergeWordStates_keeps_winner (L C : DeckState) (w : String)
    (l c : WordRecord) (hl : lookupA L.state w = some l)
    (hc : lookupA C.state w = some c) :
    lookupA (mergeWordStates (some L) (some C)).state w =
      some (if c.next.getD 0 ≤ l.next.getD 0 then l else c) := by
  show lookupA (mergeStateMaps L.state C.state) w = _
  rw [lookupA_mergeStateMaps, hl, hc]
  rfl

def c1LocalRec : WordRecord := { next := some 300, payload := "local-opaque" }

def c1CloudRec : WordRecord := { next := some 300, payload := "cloud-opaque" }

def c1LocalDeck : DeckState :=
  { state := [("cat", c1LocalRec)], points := some 5, streak := some 2
    autoPlay := none }

def c1CloudDeck : DeckState :=
  { state := [("cat", c1CloudRec)], points := some 3, streak := some 4
    autoPlay := some false }

/-- Witness for C1 at the tie case: both records carry `next = 300`; the
merged deck keeps the local record together with its opaque payload. -/
theorem mergeWordStates_keeps_winner_witness :
    lookupA (mergeWordStates (some c1LocalDeck) (some c1CloudDeck)).state "cat" =
      some c1LocalRec := by
  have h := mergeWordStates_keeps_winner c1LocalDeck c1CloudDeck "cat"
    c1LocalRec c1CloudRec (by decide) (by decide)
  rwa [if_pos (by decide)] at h

/-- The word keys of the deck stored under `d`, empty when no such deck. -/
def wordKeysAt (s : Snapshot) (d : String) : List String :=
  ((lookupA s.decks d).map fun ds => keysA ds.state).getD []

/-- C2: after a merge, the deck keyspace is exactly the union of the two
inputs' deck keyspaces, and each merged deck's state map holds every word
key present in either input deck exactly once: its key list has no
duplicates and its members are exactly the union of the inputs' word keys.
The hypotheses state that the input snapshots' state maps, being JS
objects, carry no duplicate word keys. -/
theorem mergeAll_union_keyspaces (A B : Snapshot)
    (hA : ∀ p ∈ A.decks, (keysA p.2.state).Nodup)
    (hB : ∀ p ∈ B.decks, (keysA p.2.state).Nodup) :
    (∀ d, d ∈ keysA (mergeAll A B).decks ↔
        d ∈ keysA A.decks ∨ d ∈ keysA B.decks) ∧
    (∀ d D, lookupA (mergeAll A B).decks d = some D →
      (keysA D.state).Nodup ∧
      ∀ w, w ∈ keysA D.state ↔ w ∈ wordKeysAt A d ∨ w ∈ wordKeysAt B d) := by
  constructor
  · intro d
    show d ∈ keysA (mergeDecks A.decks B.decks) ↔ _
    rw [keysA_mergeDecks, mem_jsDedup_id, List.mem_append]
  · intro d D hD
    replace hD : lookupA (mergeDecks A.decks B.decks) d = some D := hD
    have hdm : d ∈ jsDedup id (keysA A.decks ++ keysA B.decks) := by
      by_contra hc
      rw [lookupA_eq_none_of_not_mem _ _ (by rwa [keysA_mergeDecks])] at hD
      cases hD
    rw [lookupA_mergeDecks_mem _ _ _ hdm] at hD
    injection hD with hD
    cases hLA : lookupA A.decks d with
    | none =>
      cases hBA : lookupA B.decks d with
      | none =>
        exfalso
        rcases List.mem_append.mp ((mem_jsDedup_id _ _).mp hdm) with h | h
        · have hs := lookupA_isSome_of_mem A.decks d h
          rw [hLA] at hs
          cases hs
        · have hs := lookupA_isSome_of_mem B.decks d h
          rw [hBA] at hs
          cases hs
      | some CB =>
        rw [hLA, hBA] at hD
        have hDB : D = CB := hD.symm
        subst hDB
        constructor
        · exact hB _ (lookupA_eq_some_mem _ _ _ hBA)
        · intro w
          simp [wordKeysAt, hLA, hBA]
    | some LA =>
      cases hBA : lookupA B.decks d with
      | none =>
        rw [hLA, hBA] at hD
        have hDA : D = LA := hD.symm
        subst hDA
        constructor
        · exact hA _ (lookupA_eq_some_mem _ _ _ hLA)
        · intro w
          simp [wordKeysAt, hLA, hBA]
      | some CB =>
        rw [hLA, hBA] at hD
        have hDm : D = mergeWordStates (some LA) (some CB) := hD.symm
        subst hDm
        have hkeys : keysA (mergeWordStates (some LA) (some CB)).state =
            jsDedup id (keysA LA.state ++ keysA CB.state) :=
          keysA_mergeStateMaps LA.state CB.state
        constructor
        · rw [hkeys]
          exact jsDedup_id_nodup _
        · intro w
          rw [hkeys, mem_jsDedup_id, List.mem_append]
          simp [wordKeysAt, hLA, hBA]

def c2SnapA : Snapshot :=
  { decks := [("animals", c1LocalDeck)], global := none, preferredDeck := ""
    readingHistory := [], extra := [] }

def c2SnapB : Snapshot :=
  { decks := [("animals", c1CloudDeck),
      ("food", { state := [("rice", { next := some 7, payload := "r" })]
                 points := none, streak := none, autoPlay := none })]
    global := none, preferredDeck := "", readingHistory := [], extra := [] }

/-- Witness for C2 at concrete snapshots sharing one deck. -/
theorem mergeAll_union_keyspaces_witness :
    (∀ d, d ∈ keysA (mergeAll c2SnapA c2SnapB).decks ↔
        d ∈ keysA c2SnapA.decks ∨ d ∈ keysA c2SnapB.decks) ∧
    (∀ d D, lookupA (mergeAll c2SnapA c2SnapB).decks d = some D →
      (keysA D.state).Nodup ∧
      ∀ w, w ∈ keysA D.state ↔
        w ∈ wordKeysAt c2SnapA d ∨ w ∈ wordKeysAt c2SnapB d) :=
  mergeAll_union_keyspaces c2SnapA c2SnapB (by decide) (by decide)

/-- C3: the merged counters `points` and `streak` (per deck) and
`dailyStreak` and `totalReviewed` (global) each equal the maximum of the
local and cloud values, a missing counter read as 0 exactly as the code's
`|| 0` defaults do. -/
theorem merged_counters_max :
    (∀ lo co : Option DeckState,
      (mergeWordStates lo co).points.getD 0 =
        max ((lo.bind DeckState.points).getD 0)
          ((co.bind DeckState.points).getD 0) ∧
      (mergeWordStates lo co).streak.getD 0 =
        max ((lo.bind DeckState.streak).getD 0)
          ((co.bind DeckState.streak).getD 0)) ∧
    (∀ go ho : Option GlobalState,
      (mergeGlobal go ho).dailyStreak.getD 0 =
        max ((go.bind GlobalState.dailyStreak).getD 0)
          ((ho.bind GlobalState.dailyStreak).getD 0) ∧
      (mergeGlobal go ho).totalReviewed.getD 0 =
        max ((go.bind GlobalState.totalReviewed).getD 0)
          ((ho.bind GlobalState.totalReviewed).getD 0)) := by
  constructor
  · rintro (_ | l) (_ | c) <;>
      simp [mergeWordStates, emptyDeck, Nat.zero_max, Nat.max_zero]
  · rintro (_ | g) (_ | h) <;>
      simp [mergeGlobal, emptyGlobal, Nat.zero_max, Nat.max_zero]

/-- C10: the merged snapshot is built as a fresh object holding exactly the
four known top-level fields: whatever unknown top-level fields the inputs
carried, the result's unknown-field carrier is empty (and `global` is
always present).  Opaque per-word fields, by contrast, ride through inside
the winning records. -/
theorem mergeAll_drops_unknown_fields (A B : Snapshot) :
    (mergeAll A B).extra = [] ∧ (mergeAll A B).global.isSome = true :=
  ⟨rfl, rfl⟩

def c4Num : HistoryItem := .scalar (.num 1)

def c4Str : HistoryItem := .scalar (.str "1")

/-- C4 counterexample: the number `1` and the string `"1"` are distinct
scalar values, so dedup under structural equality keeps both; the code keys
both by `String(item) = "1"` and drops the cloud entry, so the merged
history differs from the claimed structural-dedup result. -/
theorem mergedHistory_counterexample :
    mergedHistory [c4Num] [c4Str] = [c4Num] ∧
    specHistoryMerge [c4Num] [c4Str] = [c4Num, c4Str] ∧
    mergedHistory [c4Num] [c4Str] ≠ specHistoryMerge [c4Num] [c4Str] := by
  refine ⟨by decide, by decide, by decide⟩

theorem mergedHistory_eq (l c : List HistoryItem) :
    mergedHistory l c = sliceLast 50 (jsDedup jsKey (l ++ c)) := by
  unfold mergedHistory jsDedup
  rw [histLoop_eq]
  rfl

theorem mergedHistory_length_le (l c : List HistoryItem) :
    (mergedHistory l c).length ≤ 50 := by
  rw [mergedHistory_eq]
  exact sliceLast_length_le _ _

theorem mergedHistory_key_nodup (l c : List HistoryItem) :
    ((mergedHistory l c).map jsKey).Nodup := by
  rw [mergedHistory_eq]
  have hsub := (sliceLast_sublist 50 (jsDedup jsKey (l ++ c))).map jsKey
  exact (jsDedup_key_nodup jsKey (l ++ c)).sublist hsub

/-- C4 (amended): the merged history equals local-then-cloud concatenation,
deduplicated by first occurrence of the code's canonical string key —
a scalar keyed by its JavaScript string coercion (which conflates, e.g.,
the number 1 with the string "1") and an object by its insertion-ordered
JSON serialization — then cut to the last 50 entries; consequently it has
length at most 50 and no two entries with the same canonical key. -/
theorem mergedHistory_spec (l c : List HistoryItem) :
    mergedHistory l c = sliceLast 50 (jsDedup jsKey (l ++ c)) ∧
    (mergedHistory l c).length ≤ 50 ∧
    ((mergedHistory l c).map jsKey).Nodup :=
  ⟨mergedHistory_eq l c, mergedHistory_length_le l c, mergedHistory_key_nodup l c⟩

/-- The achievements list carried by an optional global state. -/
def achievementsOf (o : Option GlobalState) : List String :=
  (o.map GlobalState.achievements).getD []

/-- C6: the merged achievements collection is exactly the set union of the
two inputs' achievement sets: an identifier is in it iff it is in either
input, and it holds no duplicates (so its size is `|A ∪ B|`).  The
hypotheses state that each input's achievements list is itself a set. -/
theorem mergeGlobal_achievements_union (lo co : Option GlobalState)
    (hl : (achievementsOf lo).Nodup) (hc : (achievementsOf co).Nodup) :
    (∀ a, a ∈ (mergeGlobal lo co).achievements ↔
      a ∈ achievementsOf lo ∨ a ∈ achievementsOf co) ∧
    (mergeGlobal lo co).achievements.Nodup := by
  cases lo with
  | none =>
    cases co with
    | none => simp [mergeGlobal, emptyGlobal, achievementsOf]
    | some c =>
      simp only [achievementsOf, Option.map_none', Option.getD_none,
        Option.map_some', Option.getD_some] at hl hc ⊢
      constructor
      · intro a
        simp [mergeGlobal]
      · exact hc
  | some l =>
    cases co with
    | none =>
      simp only [achievementsOf, Option.map_none', Option.getD_none,
        Option.map_some', Option.getD_some] at hl hc ⊢
      constructor
      · intro a
        simp [mergeGlobal]
      · exact hl
    | some c =>
      constructor
      · intro a
        show a ∈ jsDedup id (l.achievements ++ c.achievements) ↔ _
        rw [mem_jsDedup_id, List.mem_append]
        simp [achievementsOf]
      · exact jsDedup_id_nodup _

def c6Local : GlobalState :=
  { dailyStreak := some 5, lastStudyDate := some "2024-01-10"
    totalReviewed := some 20, achievements := ["a", "c"] }

def c6Cloud : GlobalState :=
  { dailyStreak := some 3, lastStudyDate := some "2024-02-01"
    totalReviewed := some 15, achievements := ["b", "c"] }

/-- Witness for C6 at concrete globals with overlapping achievement sets. -/
theorem mergeGlobal_achievements_union_witness :
    (∀ a, a ∈ (mergeGlobal (some c6Local) (some c6Cloud)).achievements ↔
      a ∈ achievementsOf (some c6Local) ∨ a ∈ achievementsOf (some c6Cloud)) ∧
    (mergeGlobal (some c6Local) (some c6Cloud)).achievements.Nodup :=
  mergeGlobal_achievements_union (some c6Local) (some c6Cloud)
    (by decide) (by decide)

/-- The lexically greater of two strings, in the code-unit order JavaScript
string comparison uses. -/
def lexMax (a b : String) : String :=
  if a.data ≤ b.data then b else a

/-- `lexMax` agrees with the `max` of the linear order on strings. -/
theorem lexMax_eq_max (a b : String) : lexMax a b = max a b := by
  unfold lexMax
  by_cases h : a.data ≤ b.data
  · rw [if_pos h, max_eq_right (String.le_iff_toList_le.mpr h)]
  · rw [if_neg h]
    have hba : b ≤ a :=
      le_of_not_le fun hc => h (String.le_iff_toList_le.mp hc)
    rw [max_eq_left hba]

def c9Local : GlobalState :=
  { dailyStreak := some 1, lastStudyDate := none, totalReviewed := some 2
    achievements := [] }

def c9Cloud : GlobalState :=
  { dailyStreak := some 1, lastStudyDate := some "", totalReviewed := some 2
    achievements := [] }

/-- Two strings with the same character data are equal. -/
theorem string_data_inj (a b : String) (h : a.data = b.data) : a = b := by
  cases a
  cases b
  exact congrArg String.mk h

/-- C9 counterexample: cloud supplies a `lastStudyDate` string (the empty
string) while local's is missing; the comparison reads both as `""`, the
tie sends back local's stored value, and the merged `lastStudyDate` is
missing — not a string — refuting "the result is a string whenever at
least one side supplies one". -/
theorem mergeGlobal_lastStudyDate_counterexample :
    c9Cloud.lastStudyDate.isSome = true ∧
    (mergeGlobal (some c9Local) (some c9Cloud)).lastStudyDate = none := by
  exact ⟨rfl, by decide⟩

/-- C9 (amended): with a missing date read as `""`, the merged
`lastStudyDate` read the same way equals the lexically greater of the two
inputs; the stored value of the winning side is returned verbatim, so the
result is an actual string whenever that lexical maximum is nonempty (in
particular whenever either side supplies a nonempty date), but it can be
missing when local's date is missing and cloud's is empty or missing. -/
theorem mergeGlobal_lastStudyDate_spec (l c : GlobalState) :
    ((mergeGlobal (some l) (some c)).lastStudyDate).getD "" =
      lexMax (l.lastStudyDate.getD "") (c.lastStudyDate.getD "") ∧
    (lexMax (l.lastStudyDate.getD "") (c.lastStudyDate.getD "") ≠ "" →
      (mergeGlobal (some l) (some c)).lastStudyDate =
        some (lexMax (l.lastStudyDate.getD "") (c.lastStudyDate.getD ""))) := by
  have hd : (mergeGlobal (some l) (some c)).lastStudyDate =
      if (c.lastStudyDate.getD "").data ≤ (l.lastStudyDate.getD "").data then
        l.lastStudyDate
      else c.lastStudyDate := rfl
  by_cases h : (c.lastStudyDate.getD "").data ≤ (l.lastStudyDate.getD "").data
  · have hm : lexMax (l.lastStudyDate.getD "") (c.lastStudyDate.getD "") =
        l.lastStudyDate.getD "" := by
      unfold lexMax
      by_cases h2 :
          (l.lastStudyDate.getD "").data ≤ (c.lastStudyDate.getD "").data
      · rw [if_pos h2]
        exact (string_data_inj _ _ (le_antisymm h2 h)).symm
      · rw [if_neg h2]
    rw [hd, if_pos h, hm]
    refine ⟨rfl, fun hne => ?_⟩
    cases hl : l.lastStudyDate with
    | none =>
      rw [hl] at hne
      exact absurd rfl hne
    | some s => rfl
  · have hm : lexMax (l.lastStudyDate.getD "") (c.lastStudyDate.getD "") =
        c.lastStudyDate.getD "" := by
      unfold lexMax
      rw [if_pos (le_of_not_le h)]
    rw [hd, if_neg h, hm]
    refine ⟨rfl, fun hne => ?_⟩
    cases hcs : c.lastStudyDate with
    | none =>
      rw [hcs] at hne
      exact absurd rfl hne
    | some s => rfl

def c9wLocal : GlobalState :=
  { dailyStreak := some 5, lastStudyDate := some "2024-01-10"
    totalReviewed := some 9, achievements := [] }

def c9wCloud : GlobalState :=
  { dailyStreak := some 3, lastStudyDate := some "2024-02-01"
    totalReviewed := some 4, achievements := [] }

/-- Witness for the amended C9 at two concrete nonempty dates. -/
theorem mergeGlobal_lastStudyDate_spec_witness :
    (mergeGlobal (some c9wLocal) (some c9wCloud)).lastStudyDate =
      some (lexMax (c9wLocal.lastStudyDate.getD "")
        (c9wCloud.lastStudyDate.getD "")) :=
  (mergeGlobal_lastStudyDate_spec c9wLocal c9wCloud).2 (by decide)

def c7Env : Env :=
  { verifyToken := fun t => if t = some "tok-alice" then some "alice" else none
    userExists := fun u => u == "alice"
    stored := fun _ => none
    now := 1700000000000 }

def c7Req : SyncRequest :=
  { method := "POST", action := some "push", token := some "tok-alice"
    data := none }

/-- C7 counterexample: a `push` request missing `data`, sent with a valid
token for an existing user, is answered with the validation failure — but
its event trace already holds a database read: the user-existence check
(`SELECT 1 FROM users`) runs before validation, refuting "no Record Store
or other external read or write occurs before the validation failure is
surfaced". -/
theorem handler_validation_counterexample :
    (handler c7Env c7Req).1 = errResponse 400 "Missing data payload." ∧
    (handler c7Env c7Req).2 = [DbEvent.userCheck "alice"] ∧
    (handler c7Env c7Req).2 ≠ [] := by
  refine ⟨by decide, by decide, by decide⟩

/-- C7 (amended): a malformed request — `push`/`merge` without `data`, or
an unsupported action name — that passes authentication is answered with
an immediate 400 validation failure and touches the snapshot store not at
all: its event trace is exactly the user-existence read, with no
`sync_data` read and no write of any kind.  (Validation is not before all
I/O: the user-existence read precedes it, see the counterexample.) -/
theorem handler_validation_no_store_access (env : Env) (req : SyncRequest)
    (u : String) (hm : req.method = "POST")
    (ht : env.verifyToken req.token = some u) (hu : env.userExists u = true)
    (hbad : ((req.action = some "push" ∨ req.action = some "merge") ∧
        req.data = none) ∨
      (req.action ≠ some "push" ∧ req.action ≠ some "pull" ∧
        req.action ≠ some "merge")) :
    (handler env req).1.status = 400 ∧ (handler env req).1.ok = false ∧
    (handler env req).2 = [DbEvent.userCheck u] := by
  unfold handler
  rw [if_neg (by simp [hm]), ht]
  simp only [hu]
  rcases hbad with ⟨hact | hact, hdata⟩ | ⟨hp, hl, hg⟩
  · rw [hact, hdata]
    exact ⟨rfl, rfl, rfl⟩
  · rw [hact, hdata]
    exact ⟨rfl, rfl, rfl⟩
  · rw [if_neg hp, if_neg hl, if_neg hg]
    exact ⟨rfl, rfl, rfl⟩

def c7wReq : SyncRequest :=
  { method := "POST", action := some "sync", token := some "tok-alice"
    data := none }

/-- Witness for the amended C7: an unsupported action name, authenticated. -/
theorem handler_validation_no_store_access_witness :
    (handler c7Env c7wReq).1.status = 400 ∧
    (handler c7Env c7wReq).1.ok = false ∧
    (handler c7Env c7wReq).2 = [DbEvent.userCheck "alice"] :=
  handler_validation_no_store_access c7Env c7wReq "alice" rfl (by decide)
    (by decide) (Or.inr ⟨by decide, by decide, by decide⟩)

/-- C8: an authenticated `pull` for a principal with no stored snapshot
succeeds — HTTP 200 with `ok: true` and an explicit `data: null` — rather
than failing for lack of a prior snapshot; the trace shows the store was
read and nothing written. -/
theorem handler_pull_no_data (env : Env) (req : SyncRequest) (u : String)
    (hm : req.method = "POST") (ht : env.verifyToken req.token = some u)
    (hu : env.userExists u = true) (ha : req.action = some "pull")
    (hs : env.stored u = none) :
    (handler env req).1 =
      { status := 200, ok := true, message := "No cloud data found."
        data := some none, updatedAt := none } ∧
    (handler env req).2 = [DbEvent.userCheck u, DbEvent.readSync u] := by
  unfold handler
  rw [if_neg (by simp [hm]), ht]
  simp only [hu]
  rw [ha, hs]
  exact ⟨rfl, rfl⟩

def c8Req : SyncRequest :=
  { method := "POST", action := some "pull", token := some "tok-alice"
    data := none }

/-- Witness for C8: a concrete authenticated pull against an empty store. -/
theorem handler_pull_no_data_witness :
    (handler c7Env c8Req).1 =
      { status := 200, ok := true, message := "No cloud data found."
        data := some none, updatedAt := none } ∧
    (handler c7Env c8Req).2 =
      [DbEvent.userCheck "alice", DbEvent.readSync "alice"] :=
  handler_pull_no_data c7Env c8Req "alice" rfl (by decide) (by decide) rfl rfl

/-! Idempotence of the full merge (C5). -/

/-- Data-model conformance of a deck: the required counters `points` and
`streak` are present and the word map, being a JS object, has no duplicate
keys. -/
def WFDeck (d : DeckState) : Prop :=
  d.points.isSome = true ∧ d.streak.isSome = true ∧ (keysA d.state).Nodup

instance (d : DeckState) : Decidable (WFDeck d) :=
  inferInstanceAs (Decidable (_ ∧ _ ∧ _))

/-- Data-model conformance of a global state: required counters present,
achievements a set (no duplicate identifiers). -/
def WFGlobal (g : GlobalState) : Prop :=
  g.dailyStreak.isSome = true ∧ g.totalReviewed.isSome = true ∧
    g.achievements.Nodup

instance (g : GlobalState) : Decidable (WFGlobal g) :=
  inferInstanceAs (Decidable (_ ∧ _ ∧ _))

/-- Conformance of an optional global: present and conforming. -/
def WFGlobalOpt : Option GlobalState → Prop
  | none => False
  | some g => WFGlobal g

instance (o : Option GlobalState) : Decidable (WFGlobalOpt o) :=
  match o with
  | none => isFalse fun h => h
  | some g => inferInstanceAs (Decidable (WFGlobal g))

/-- Data-model conformance of a snapshot, as §3 of the spec requires it:
every deck conforming and a conforming global state present. -/
def SnapshotWF (s : Snapshot) : Prop :=
  (∀ p ∈ s.decks, WFDeck p.2) ∧ WFGlobalOpt s.global

instance (s : Snapshot) : Decidable (SnapshotWF s) :=
  inferInstanceAs (Decidable (_ ∧ _))

theorem WFGlobalOpt_some (o : Option GlobalState) (h : WFGlobalOpt o) :
    ∃ g, o = some g ∧ WFGlobal g := by
  cases o with
  | none => exact (h : False).elim
  | some g => exact ⟨g, rfl, h⟩

theorem mergeRecord_self (r : WordRecord) : mergeRecord r r = r := by
  unfold mergeRecord
  rw [if_pos le_rfl]

theorem mergeStateMaps_self (m : List (String × WordRecord))
    (h : (keysA m).Nodup) : mergeStateMaps m m = m := by
  unfold mergeStateMaps
  rw [jsDedup_append_self, jsDedup_eq_self id _ (by rwa [List.map_id])]
  have hfg : ∀ k ∈ keysA m,
      (pickRecord (lookupA m k) (lookupA m k)).map (fun r => (k, r)) =
        (lookupA m k).map fun v => (k, v) := by
    intro k _
    cases hl : lookupA m k with
    | none => rfl
    | some r =>
      show some (k, mergeRecord r r) = some (k, r)
      rw [mergeRecord_self]
  rw [filterMap_congr_mem _ _ _ hfg]
  exact filterMap_reconstruct m h

theorem mergeWordStates_self (d : DeckState) (h : WFDeck d) :
    mergeWordStates (some d) (some d) = d := by
  obtain ⟨st, pts, stk, ap⟩ := d
  obtain ⟨hp0, hs0, hn0⟩ := h
  obtain ⟨p, hp⟩ := Option.isSome_iff_exists.mp hp0
  replace hp : pts = some p := hp
  subst hp
  obtain ⟨s, hs⟩ := Option.isSome_iff_exists.mp hs0
  replace hs : stk = some s := hs
  subst hs
  have hn1 : (keysA st).Nodup := hn0
  simp only [mergeWordStates]
  rw [mergeStateMaps_self st hn1]
  simp [max_self, ite_self]

theorem mergeGlobal_self (g : GlobalState) (h : WFGlobal g) :
    mergeGlobal (some g) (some g) = g := by
  obtain ⟨ds, lsd, tr, ach⟩ := g
  obtain ⟨hd0, ht0, hn0⟩ := h
  obtain ⟨a, ha⟩ := Option.isSome_iff_exists.mp hd0
  replace ha : ds = some a := ha
  subst ha
  obtain ⟨b, hb⟩ := Option.isSome_iff_exists.mp ht0
  replace hb : tr = some b := hb
  subst hb
  have hn1 : ach.Nodup := hn0
  simp only [mergeGlobal]
  rw [jsDedup_append_self, jsDedup_eq_self id _ (by rwa [List.map_id])]
  simp [max_self, ite_self]

theorem mergeWordStates_WF (lo co : Option DeckState)
    (hl : ∀ d, lo = some d → WFDeck d) (hc : ∀ d, co = some d → WFDeck d)
    (hne : lo.isSome = true ∨ co.isSome = true) :
    WFDeck (mergeWordStates lo co) := by
  cases lo with
  | none =>
    cases co with
    | none => rcases hne with h | h <;> cases h
    | some c => exact hc c rfl
  | some l =>
    cases co with
    | none => exact hl l rfl
    | some c =>
      refine ⟨rfl, rfl, ?_⟩
      show (keysA (mergeStateMaps l.state c.state)).Nodup
      rw [keysA_mergeStateMaps]
      exact jsDedup_id_nodup _

theorem mergeGlobal_WF (ga gb : GlobalState) :
    WFGlobal (mergeGlobal (some ga) (some gb)) :=
  ⟨rfl, rfl, jsDedup_id_nodup _⟩

theorem map_merge_reconstruct (m : List (String × DeckState)) :
    (keysA m).Nodup → (∀ p ∈ m, WFDeck p.2) →
      ((keysA m).map fun d => (d, mergeWordStates (lookupA m d) (lookupA m d))) =
        m := by
  induction m with
  | nil => intro _ _; rfl
  | cons p rest ih =>
    intro hnd hwf
    obtain ⟨k, D⟩ := p
    have hnd' : k ∉ keysA rest ∧ (keysA rest).Nodup := by
      rw [show keysA ((k, D) :: rest) = k :: keysA rest from rfl,
        List.nodup_cons] at hnd
      exact hnd
    have hlk : lookupA ((k, D) :: rest) k = some D := by simp [lookupA]
    show (k, mergeWordStates (lookupA ((k, D) :: rest) k)
        (lookupA ((k, D) :: rest) k)) ::
      ((keysA rest).map fun d =>
        (d, mergeWordStates (lookupA ((k, D) :: rest) d)
          (lookupA ((k, D) :: rest) d))) = (k, D) :: rest
    rw [hlk, mergeWordStates_self D (hwf (k, D) (List.mem_cons_self _ _))]
    refine congrArg ((k, D) :: ·) ?_
    rw [map_congr_mem (keysA rest) _
      (fun d => (d, mergeWordStates (lookupA rest d) (lookupA rest d)))
      fun d hd => ?_]
    · exact ih hnd'.2 fun q hq => hwf q (List.mem_cons_of_mem _ hq)
    · have hkd : k ≠ d := fun he => hnd'.1 (he ▸ hd)
      simp [lookupA, if_neg hkd]

theorem mergeDecks_self (m : List (String × DeckState))
    (hnd : (keysA m).Nodup) (hwf : ∀ p ∈ m, WFDeck p.2) :
    mergeDecks m m = m := by
  unfold mergeDecks
  rw [jsDedup_append_self, jsDedup_eq_self id _ (by rwa [List.map_id])]
  exact map_merge_reconstruct m hnd hwf

theorem mergePreferred_self (p : String) : mergePreferred p p = p := by
  unfold mergePreferred
  by_cases h : p = ""
  · simp [h]
  · simp [h]

theorem mergedHistory_self (h : List HistoryItem)
    (hn : (h.map jsKey).Nodup) (hl : h.length ≤ 50) :
    mergedHistory h h = h := by
  rw [mergedHistory_eq, jsDedup_append_self, jsDedup_eq_self _ _ hn,
    sliceLast_eq_self _ _ hl]

theorem snapshot_ext (s t : Snapshot) (h1 : s.decks = t.decks)
    (h2 : s.global = t.global) (h3 : s.preferredDeck = t.preferredDeck)
    (h4 : s.readingHistory = t.readingHistory) (h5 : s.extra = t.extra) :
    s = t := by
  cases s
  cases t
  cases h1
  cases h2
  cases h3
  cases h4
  cases h5
  rfl

/-- C5: for all data-model-conforming snapshots A and B (each deck carries
its `points`/`streak` counters and duplicate-free word keys, `global` is
present with its counters and a duplicate-free achievement set — exactly
what §3's data model requires of a Snapshot), merging the merge result
with itself yields it unchanged: `merge(merge(A,B), merge(A,B)) =
merge(A,B)`. -/
theorem mergeAll_idempotent (A B : Snapshot) (hA : SnapshotWF A)
    (hB : SnapshotWF B) :
    mergeAll (mergeAll A B) (mergeAll A B) = mergeAll A B := by
  obtain ⟨hAd, hAg⟩ := hA
  obtain ⟨hBd, hBg⟩ := hB
  obtain ⟨ga, hga, _⟩ := WFGlobalOpt_some _ hAg
  obtain ⟨gb, hgb, _⟩ := WFGlobalOpt_some _ hBg
  have hdnodup : (keysA (mergeAll A B).decks).Nodup := by
    show (keysA (mergeDecks A.decks B.decks)).Nodup
    rw [keysA_mergeDecks]
    exact jsDedup_id_nodup _
  have hdwf : ∀ p ∈ (mergeAll A B).decks, WFDeck p.2 := by
    intro p hp
    obtain ⟨d, hd, rfl⟩ := List.mem_map.mp hp
    refine mergeWordStates_WF _ _ ?_ ?_ ?_
    · intro dd hdd
      exact hAd _ (lookupA_eq_some_mem _ _ _ hdd)
    · intro dd hdd
      exact hBd _ (lookupA_eq_some_mem _ _ _ hdd)
    · rcases List.mem_append.mp ((mem_jsDedup_id _ _).mp hd) with h | h
      · exact Or.inl (lookupA_isSome_of_mem _ _ h)
      · exact Or.inr (lookupA_isSome_of_mem _ _ h)
  have hgm : WFGlobal (mergeGlobal A.global B.global) := by
    rw [hga, hgb]
    exact mergeGlobal_WF ga gb
  refine snapshot_ext _ _ ?_ ?_ ?_ ?_ rfl
  · exact mergeDecks_self _ hdnodup hdwf
  · exact congrArg some (mergeGlobal_self _ hgm)
  · exact mergePreferred_self _
  · exact mergedHistory_self _ (mergedHistory_key_nodup _ _)
      (mergedHistory_length_le _ _)

def c5SnapA : Snapshot :=
  { decks := [("animals", c1LocalDeck)], global := some c6Local
    preferredDeck := "animals", readingHistory := [c4Num]
    extra := [("unknownField", "junk")] }

def c5SnapB : Snapshot :=
  { decks := [("animals", c1CloudDeck),
      ("food", { state := [("rice", { next := some 7, payload := "r" })]
                 points := some 1, streak := some 0, autoPlay := none })]
    global := some c6Cloud, preferredDeck := "", readingHistory := [c4Str]
    extra := [] }

/-- Witness for C5 at two concrete conforming snapshots. -/
theorem mergeAll_idempotent_witness :
    mergeAll (mergeAll c5SnapA c5SnapB) (mergeAll c5SnapA c5SnapB) =
      mergeAll c5SnapA c5SnapB :=
  mergeAll_idempotent c5SnapA c5SnapB (by decide) (by decide)

end VocabLoop
